import Mathlib

/-!
Verification development for the correlation-matrix core of
BrainNetworksInPython / scona (`scona/make_corr_matrices.py`).

The data model is a shallow embedding of the pandas structures the code
manipulates: a data frame is an ordered association list of named columns,
each column carrying its dtype kind (numeric or not, as reported by
`np.issubdtype(dtype, np.number)`) and its values.  Values are rationals
(standing for the numeric entries) or strings.  Fallible operations return
`Except PyErr`, mirroring the Python exceptions raised.  Randomness
(`np.random.permutation`) is passed in explicitly as an index list, and the
file system touched by `save_mat` is threaded as an explicit state.
-/

/-- A scalar stored in a data-frame cell: numeric (modelled as `ℚ`) or a
string (the representative non-numeric value in this code base). -/
inductive Val where
  | num (q : ℚ)
  | str (s : String)
deriving DecidableEq

/-- Is the value numeric? -/
def Val.isNum : Val → Bool
  | .num _ => true
  | .str _ => false

/-- Numeric reading of a value (`0` junk on strings; only used on columns
whose values are numeric, which well-formedness guarantees for
numeric-dtype columns). -/
def Val.toRat : Val → ℚ
  | .num q => q
  | .str _ => 0

/-- A pandas column: its dtype kind (`numeric = np.issubdtype (dtype, np.number)`)
and its cell values, one per row. -/
structure Column where
  numeric : Bool
  vals : List Val
deriving DecidableEq

/-- A pandas data frame: an ordered association list of named columns. -/
structure DF where
  cols : List (String × Column)
deriving DecidableEq

/-- Python exceptions that the embedded code can raise. -/
inductive PyErr where
  | typeError (msg : String)
  | valueError (msg : String)
  | keyError (key : String)
  | fileNotFoundError (msg : String)
  | notADirectoryError (msg : String)
deriving DecidableEq

instance {ε α : Type} [DecidableEq ε] [DecidableEq α] : DecidableEq (Except ε α) :=
  fun a b =>
  match a, b with
  | .ok x, .ok y =>
    if h : x = y then .isTrue (by rw [h])
    else .isFalse (by intro hc; cases hc; exact h rfl)
  | .error x, .error y =>
    if h : x = y then .isTrue (by rw [h])
    else .isFalse (by intro hc; cases hc; exact h rfl)
  | .ok _, .error _ => .isFalse (by intro hc; cases hc)
  | .error _, .ok _ => .isFalse (by intro hc; cases hc)

/-- Row count of a data frame: length of its first column (as used by
`np.ones_like(df.iloc[:, 0])` in the source); `0` for an empty frame. -/
def nRows (df : DF) : Nat :=
  match df.cols with
  | [] => 0
  | c :: _ => c.2.vals.length

/-- Column lookup (`df[n]` / `df.loc[:, n]`): first column with the name. -/
def dfLookup (df : DF) (n : String) : Option Column :=
  (df.cols.find? (fun p => p.1 == n)).map Prod.snd

/-- Well-formedness of a frame: unique column names, all columns of equal
row count, and numeric-dtype columns hold only numeric values. -/
def DF.WF (df : DF) : Prop :=
  (df.cols.map Prod.fst).Nodup ∧
  (∀ c ∈ df.cols, c.2.vals.length = nRows df) ∧
  (∀ c ∈ df.cols, c.2.numeric = true → c.2.vals.all Val.isNum = true)

instance : DecidablePred DF.WF := fun df => by
  unfold DF.WF; infer_instance

/-- Column selection `df[ns]`: the named columns in the requested order;
a missing name raises `KeyError`. -/
def dfSelectCols (df : DF) : List String → Except PyErr (List (String × Column))
  | [] => .ok []
  | n :: ns =>
    match dfLookup df n with
    | none => .error (.keyError n)
    | some c => (dfSelectCols df ns).map (fun t => (n, c) :: t)

/-- `df[ns]` packaged as a data frame. -/
def dfSelect (df : DF) (ns : List String) : Except PyErr DF :=
  (dfSelectCols df ns).map DF.mk

/-- Column assignment (`df[n] = col` and `df.loc[:, n] = col`): replaces the
columns named `n` when present, otherwise appends a new column. -/
def dfAssign (df : DF) (n : String) (c : Column) : DF :=
  if df.cols.any (fun p => p.1 == n) then
    ⟨df.cols.map (fun p => if p.1 == n then (n, c) else p)⟩
  else ⟨df.cols ++ [(n, c)]⟩

/-- Assignment of a float series (`df_res.loc[:, name] = residual values`):
the stored column becomes a numeric (float) column. -/
def dfSetVals (df : DF) (n : String) (vs : List ℚ) : DF :=
  dfAssign df n ⟨true, vs.map Val.num⟩

/-- Boolean-mask row selection `df.loc[mask, :]`: keep the rows whose mask
entry is true, in every column. -/
def maskFilter {α : Type} (vs : List α) (mask : List Bool) : List α :=
  ((vs.zip mask).filter (fun p => p.2)).map Prod.fst

/-- Apply a row mask to every column of a frame. -/
def dfMaskRows (df : DF) (mask : List Bool) : DF :=
  ⟨df.cols.map (fun c => (c.1, ⟨c.2.numeric, maskFilter c.2.vals mask⟩))⟩

/-- `get_non_numeric_cols(df)`: names of the columns whose dtype is not a
subtype of `np.number`, in column order (the source returns them as a
numpy array of names). -/
def get_non_numeric_cols (df : DF) : List String :=
  (df.cols.filter (fun c => !c.2.numeric)).map Prod.fst

/-- Truthiness of a numpy array, as used by `if non_numeric_cols:` in the
source: an empty array is falsy (with a deprecation warning in the numpy
versions of this code base), a one-element array has the truthiness of its
element (a nonempty string is truthy), and an array of two or more elements
raises `ValueError`. -/
def npArrayTruthy (xs : List String) : Except PyErr Bool :=
  match xs with
  | [] => .ok false
  | [s] => .ok (s != "")
  | _ => .error (.valueError
      "The truth value of an array with more than one element is ambiguous. Use a.any() or a.all()")

/-- The message of the `TypeError` raised on non-numeric columns. -/
def nonNumericMsg (cols : List String) : String :=
  "DataFrame columns " ++ String.intercalate ", " cols ++ " are non numeric"

/-- The message of the `TypeError` raised by `names + covars` when
`covars` is `None`. -/
def concatNoneMsg : String :=
  "can only concatenate list (not \"NoneType\") to list"

/-! ### Residuals (statistics helpers) -/

/-- Dot product of two rational vectors (truncating at the shorter). -/
def dot (a b : List ℚ) : ℚ := (List.zipWith (fun x y => x * y) a b).sum

/-- Gaussian elimination with back-substitution on an augmented system of
rows (each row: coefficients then right-hand side), over `k` unknowns.
Free variables are set to `0`. -/
def gaussSolve : Nat → List (List ℚ) → List ℚ
  | 0, _ => []
  | k + 1, rows =>
    match rows.span (fun r => r.headD 0 == 0) with
    | (_, []) => 0 :: gaussSolve k (rows.map List.tail)
    | (pre, piv :: post) =>
      let ph := piv.headD 0
      let others := (pre ++ post).map (fun r =>
        List.zipWith (fun a b => a - (r.headD 0 / ph) * b) r.tail piv.tail)
      let bs := gaussSolve k others
      ((piv.getLastD 0 - dot piv.tail bs) / ph) :: bs

/-- Modelled from the spec: `scona.stats_functions.residuals` is not among
the sources.  Per spec section 4.1 it computes, for design data `x` (a list
of predictor rows, as passed via `x.T` by the caller) and observations `y`,
the ordinary-least-squares residuals `y - X·β` with `β` a least-squares
solve (here: the normal equations solved by Gaussian elimination, free
variables set to `0`).  The output is index-aligned with `y`. -/
def residuals (x : List (List ℚ)) (y : List ℚ) : List ℚ :=
  let aug := x.map (fun xa => x.map (fun xb => dot xa xb) ++ [dot xa y])
  let bs := gaussSolve x.length aug
  y.mapIdx (fun i yi => yi - dot (x.map (fun xa => xa.getD i 0)) bs)

/-- Numeric reading of the column named `n` (used for `df.loc[:, name]`
inside the residual loop; callers have already checked that `n` exists). -/
def colRat (df : DF) (n : String) : List ℚ :=
  match dfLookup df n with
  | some c => c.vals.map Val.toRat
  | none => []

/-- The design data `x.T` built by `create_residuals_df`: the source
distinguishes `len(covars) > 1` (`np.vstack([df[covars]]).T`),
`len(covars) == 1` (`df[covars].T`) and no covariates
(`np.ones_like(df.iloc[:, 0])`); transposed, the first two are both the
list of covariate columns, and the last is a single all-ones row. -/
def designX (df : DF) (covars : List String) : List (List ℚ) :=
  match covars with
  | [] => [List.replicate (nRows df) 1]
  | [c] => [colRat df c]
  | cs => cs.map (colRat df)

/-! ### `create_residuals_df` -/

/-- Embedding of `create_residuals_df(df, names, covars)`.  The `covars`
argument is `Option`-valued because `corrmat_from_regionalmeasures`
defaults it to `None`: the first operation performed is `names + covars`,
which raises `TypeError` on `None`.  Then `df[names + covars]` is selected,
its non-numeric columns are computed and tested for truthiness (a
`TypeError` naming them is raised when the test is true), `df_res` is the
copy `df[names]`, and each requested column is overwritten with the
residuals of the original column against the covariate design. -/
def create_residuals_df (df : DF) (names : List String)
    (covars? : Option (List String)) : Except PyErr DF :=
  match covars? with
  | none => .error (.typeError concatNoneMsg)
  | some covars =>
    match dfSelect df (names ++ covars) with
    | .error e => .error e
    | .ok sel =>
      match npArrayTruthy (get_non_numeric_cols sel) with
      | .error e => .error e
      | .ok true => .error (.typeError (nonNumericMsg (get_non_numeric_cols sel)))
      | .ok false =>
        match dfSelect df names with
        | .error e => .error e
        | .ok dfres =>
          let x := designX df covars
          .ok (names.foldl (fun acc n => dfSetVals acc n (residuals x (colRat df n))) dfres)

/-! ### `split_groups` -/

/-- Python `'{}'.format(value)` for a cell value (group values in this code
base are strings or integers; a non-integral rational is rendered with its
default representation). -/
def valFormat : Val → String
  | .num q => if q.den = 1 then toString q.num else toString q
  | .str s => s

/-- The dictionary key `'{}_{}'.format(group_var, value)`. -/
def mkGroupKey (g : String) (v : Val) : String := g ++ "_" ++ valFormat v

/-- Insertion into a Python dict modelled as an association list: an
existing key is overwritten in place, a new key is appended. -/
def pyDictInsert (d : List (String × DF)) (k : String) (v : DF) :
    List (String × DF) :=
  if d.any (fun p => p.1 == k) then
    d.map (fun p => if p.1 == k then (k, v) else p)
  else d ++ [(k, v)]

/-- The loop of `split_groups`: for each distinct value of the partition
column (Python iterates `set(values)`, modelled in first-occurrence order),
insert the rows equal to that value under the formatted key. -/
def splitLoop (df1 : DF) (gv : String) (col : Column) : List (String × DF) :=
  col.vals.dedup.foldl
    (fun acc v =>
      pyDictInsert acc (mkGroupKey gv v)
        (dfMaskRows df1 (col.vals.map (fun w => w == v))))
    []

/-- Embedding of `split_groups(df, group_var, shuffle)`.  The consumed
numpy random state is passed as the index list `σ`
(`np.random.permutation` of the column is `σ.filterMap (vals.get? ·)` for a
permutation `σ` of the row indices).  The function returns the dictionary
of subsets together with the caller-visible data frame after the call:
when `shuffle` is true the source assigns the shuffled column into `df`
itself, and the final `df.drop(columns=[group_rand])` call discards its
result, so the added column remains on the caller's frame. -/
def split_groups (df : DF) (group_var : String) (shuffle : Bool)
    (σ : List Nat) : Except PyErr (List (String × DF) × DF) :=
  if shuffle then
    match dfLookup df group_var with
    | none => .error (.keyError group_var)
    | some col =>
      let group_rand := group_var ++ "_rand"
      let shuffled : List Val := σ.filterMap (fun i => col.vals.get? i)
      let df1 := dfAssign df group_rand ⟨col.numeric, shuffled⟩
      match dfLookup df1 group_rand with
      | none => .error (.keyError group_rand)
      | some col1 => .ok (splitLoop df1 group_rand col1, df1)
  else
    match dfLookup df group_var with
    | none => .error (.keyError group_var)
    | some col => .ok (splitLoop df group_var col, df)

/-! ### Correlation -/

/-- The correlation methods accepted by `pandas.DataFrame.corr` and passed
through by `create_corrmat`. -/
inductive CorrMethod where
  | pearson
  | spearman
  | kendall
deriving DecidableEq

/-- Mean of a rational list (`0` junk for the empty list, whose variance is
`0` and which therefore never reaches a division). -/
def qmean (x : List ℚ) : ℚ := x.sum / x.length

/-- Sum of products of centred coordinates, `Σ (xᵢ - x̄) (yᵢ - ȳ)`:
the covariance numerator used by Pearson correlation. -/
def scov (x y : List ℚ) : ℚ :=
  ((x.zip y).map (fun p => (p.1 - qmean x) * (p.2 - qmean y))).sum

/-- Centred sum of squares `Σ (xᵢ - x̄)²`: the variance numerator. -/
def svar (x : List ℚ) : ℚ := scov x x

/-- Pearson correlation of two columns; `none` models the NaN that pandas
produces when either column has zero variance. -/
noncomputable def pearsonCorr (x y : List ℚ) : Option ℝ :=
  if svar x = 0 ∨ svar y = 0 then none
  else some ((scov x y : ℝ) / (Real.sqrt (svar x) * Real.sqrt (svar y)))

/-- Average (fractional) ranks, as used by Spearman correlation: the rank
of a value `v` is (number of smaller entries) + (its multiplicity + 1)/2,
one-based. -/
def rankAvg (x : List ℚ) : List ℚ :=
  x.map (fun v =>
    (x.countP (fun w => decide (w < v)) : ℚ) + ((x.count v : ℚ) + 1) / 2)

/-- Unordered index pairs `i < j` of a list, as value pairs. -/
def upairs {α : Type} : List α → List (α × α)
  | [] => []
  | a :: t => t.map (fun b => (a, b)) ++ upairs t

/-- Sign of a rational. -/
def sgn (q : ℚ) : ℚ := if q < 0 then -1 else if q = 0 then 0 else 1

/-- Kendall concordance sum `Σ_{i<j} sgn (xᵢ-xⱼ) · sgn (yᵢ-yⱼ)` over the
zipped column. -/
def kendallS (z : List (ℚ × ℚ)) : ℚ :=
  ((upairs z).map (fun p => sgn (p.1.1 - p.2.1) * sgn (p.1.2 - p.2.2))).sum

/-- Number of index pairs `i < j` not tied under `f`. -/
def untiedPairs (z : List (ℚ × ℚ)) (f : ℚ × ℚ → ℚ) : Nat :=
  (upairs z).countP (fun p => decide (f p.1 ≠ f p.2))

/-- Kendall tau-b of two columns, `S / sqrt (Tx · Ty)`; `none` models the
NaN produced when either column is fully tied. -/
noncomputable def kendallTauB (x y : List ℚ) : Option ℝ :=
  if untiedPairs (x.zip y) Prod.fst = 0 ∨ untiedPairs (x.zip y) Prod.snd = 0 then none
  else some ((kendallS (x.zip y) : ℝ) /
    (Real.sqrt (untiedPairs (x.zip y) Prod.fst) *
     Real.sqrt (untiedPairs (x.zip y) Prod.snd)))

/-- The correlation coefficient computed by `pandas.DataFrame.corr` for a
pair of columns, per method (Spearman is Pearson on average ranks). -/
noncomputable def corrVal : CorrMethod → List ℚ → List ℚ → Option ℝ
  | .pearson, x, y => pearsonCorr x y
  | .spearman, x, y => pearsonCorr (rankAvg x) (rankAvg y)
  | .kendall, x, y => kendallTauB x y

/-- The full pairwise correlation matrix over a list of columns. -/
noncomputable def corrMatrix (m : CorrMethod) (cols : List (List ℚ)) :
    List (List (Option ℝ)) :=
  cols.map (fun x => cols.map (fun y => corrVal m x y))

/-- Matrix indexing `M[i][j]` (`none` out of range). -/
def matGet {α : Type} (M : List (List α)) (i j : Nat) : Option α :=
  (M.get? i).bind (fun r => r.get? j)

/-- `astype(float)` on one column's values: numeric cells pass through, a
string cell raises `ValueError` (string cells only occur outside the
well-formed frames the theorems quantify over). -/
def valsToFloat : List Val → Except PyErr (List ℚ)
  | [] => .ok []
  | Val.num q :: t => (valsToFloat t).map (fun qs => q :: qs)
  | Val.str s :: _ => .error (.valueError ("could not convert string to float: " ++ s))

/-- `astype(float)` over selected columns. -/
def colsToFloat : List (String × Column) → Except PyErr (List (List ℚ))
  | [] => .ok []
  | c :: t =>
    match valsToFloat c.2.vals with
    | .error e => .error e
    | .ok qs => (colsToFloat t).map (fun rest => qs :: rest)

/-- Embedding of `create_corrmat(df_res, names, method)`: `names=None`
defaults to all columns of `df_res`; the non-numeric check is computed over
the whole of `df_res` (not the selection) and tested for numpy truthiness;
then `df_res.loc[:, names].astype(float).corr(method)` is returned. -/
noncomputable def create_corrmat (df_res : DF) (names? : Option (List String))
    (method : CorrMethod) : Except PyErr (List (List (Option ℝ))) :=
  let names := names?.getD (df_res.cols.map Prod.fst)
  match npArrayTruthy (get_non_numeric_cols df_res) with
  | .error e => .error e
  | .ok true => .error (.typeError (nonNumericMsg (get_non_numeric_cols df_res)))
  | .ok false =>
    match dfSelectCols df_res names with
    | .error e => .error e
    | .ok sel =>
      match colsToFloat sel with
      | .error e => .error e
      | .ok cols => .ok (corrMatrix method cols)

/-- Embedding of `corrmat_from_regionalmeasures(regional_measures, names,
covars, method)`: residualize, then correlate over `names` (the `.values`
projection is the identity here since the matrix carries no axis labels). -/
noncomputable def corrmat_from_regionalmeasures (regional_measures : DF)
    (names : List String) (covars? : Option (List String))
    (method : CorrMethod) : Except PyErr (List (List (Option ℝ))) :=
  match create_residuals_df regional_measures names covars? with
  | .error e => .error e
  | .ok df_res => create_corrmat df_res (some names) method

/-! ### `save_mat` -/

/-- The file-system state visible to `save_mat`: the set of existing
directories (relative paths; the working directory itself is the empty
prefix and is not listed) and the files with their contents. -/
structure FS where
  dirs : List String
  files : List (String × String)
deriving DecidableEq

/-- Split a character list on a separator character (the semantics of
Python `path.split(sep)`: `n` separators yield `n + 1` parts). -/
def splitOnSep (sep : Char) : List Char → List (List Char)
  | [] => [[]]
  | a :: t =>
    match splitOnSep sep t with
    | [] => if a == sep then [[], []] else [[a]]
    | h :: r => if a == sep then [] :: h :: r else (a :: h) :: r

/-- The `/`-separated components of a path. -/
def pathParts (s : String) : List String :=
  (splitOnSep (Char.ofNat 47) s.data).map String.mk

/-- `os.path.dirname` for the relative paths this code writes: everything
before the last `/`, and the empty string when there is no slash. -/
def dirname (s : String) : String :=
  let parts := pathParts s
  if parts.length ≤ 1 then "" else String.intercalate "/" parts.dropLast

/-- The chain of directories `os.makedirs` creates for a target: every
nonempty prefix of the `/`-separated path, shortest first. -/
def ancestors (d : String) : List String :=
  let parts := pathParts d
  (List.range parts.length).map (fun i => String.intercalate "/" (parts.take (i + 1)))

/-- `os.path.isdir`: the empty path is never a directory. -/
def os_isdir (fs : FS) (d : String) : Bool :=
  (d != "") && fs.dirs.contains d

/-- `os.makedirs(d)`: fails with `FileNotFoundError` on the empty path,
with `NotADirectoryError` when a needed prefix exists as a file, and
otherwise records every missing prefix as a directory. -/
def makedirs (fs : FS) (d : String) : Except PyErr FS :=
  if d = "" then .error (.fileNotFoundError "No such file or directory")
  else if (ancestors d).any (fun p => fs.files.any (fun f => f.1 == p)) then
    .error (.notADirectoryError d)
  else .ok ⟨fs.dirs ++ (ancestors d).filter (fun p => !fs.dirs.contains p), fs.files⟩

/-- Write (or overwrite) a file. -/
def fileWrite (files : List (String × String)) (n s : String) :
    List (String × String) :=
  if files.any (fun f => f.1 == n) then
    files.map (fun f => if f.1 == n then (n, s) else f)
  else files ++ [(n, s)]

/-- Content of a file, if present. -/
def lookupFile (fs : FS) (n : String) : Option String :=
  (fs.files.find? (fun f => f.1 == n)).map Prod.snd

/-- `'%.5f' % q`: fixed-point rendering with five fractional digits.  The
value rounded is `⌊q·10⁵ + 1/2⌋ = ⌊(2·num·10⁵ + den) / (2·den)⌋`, computed
on the numerator and denominator with integer operations so that it
evaluates by kernel reduction (ties in the fifth digit round toward
positive infinity here; `printf` rounds the nearest binary double to even,
and no claim exercises a tie). -/
def fmt5 (q : ℚ) : String :=
  let n : ℤ := (2 * q.num * 100000 + q.den).fdiv (2 * q.den)
  let a := n.natAbs
  let frac := toString (a % 100000)
  (if n < 0 then "-" else "") ++ toString (a / 100000) ++ "." ++
    String.mk (List.replicate (5 - frac.length) (Char.ofNat 48)) ++ frac

/-- `np.savetxt(..., fmt=%.5f, delimiter=tab, newline=newline)`: one line
per matrix row, tab-separated entries, every line newline-terminated. -/
def savetxt (M : List (List ℚ)) : String :=
  String.join (M.map (fun row => String.intercalate "\t" (row.map fmt5) ++ "\n"))

/-- Embedding of `save_mat(M, name)`: compute the dirname, create it (and
its missing parents) when it is not an existing directory, then write the
formatted matrix to the file. -/
def save_mat (fs : FS) (M : List (List ℚ)) (name : String) : Except PyErr FS :=
  match (if os_isdir fs (dirname name) then .ok fs
         else makedirs fs (dirname name) : Except PyErr FS) with
  | .error e => .error e
  | .ok fs1 => .ok ⟨fs1.dirs, fileWrite fs1.files name (savetxt M)⟩

/-! ### Helper lemmas -/

/-- Default column used to state the explicit value of a selection. -/
def colD (df : DF) (n : String) : Column := (dfLookup df n).getD ⟨true, []⟩

/-- Numeric-dtype test of a named column (`false` when absent). -/
def dfColNumeric (df : DF) (n : String) : Bool :=
  match dfLookup df n with
  | some c => c.numeric
  | none => false

theorem colRat_colD (df : DF) (n : String) :
    colRat df n = (colD df n).vals.map Val.toRat := by
  unfold colRat colD
  cases dfLookup df n <;> simp

theorem dfLookup_mem (df : DF) (n : String) (c : Column)
    (h : dfLookup df n = some c) : (n, c) ∈ df.cols := by
  unfold dfLookup at h
  cases hf : df.cols.find? (fun p => p.1 == n) with
  | none => rw [hf] at h; cases h
  | some p =>
    rw [hf] at h
    have hp1 := List.find?_some hf
    have hmem := List.mem_of_find?_eq_some hf
    have : p = (n, c) := by
      cases p with
      | mk p1 p2 =>
        simp only [beq_iff_eq] at hp1
        have h2 : p2 = c := by simpa using h
        simp [hp1, h2]
    rw [this] at hmem
    exact hmem

theorem dfColNumeric_isSome (df : DF) (n : String)
    (h : dfColNumeric df n = true) : (dfLookup df n).isSome = true := by
  unfold dfColNumeric at h
  cases hl : dfLookup df n with
  | none => rw [hl] at h; cases h
  | some c => simp

theorem dfSelectCols_ok (df : DF) (ns : List String)
    (h : ∀ n ∈ ns, (dfLookup df n).isSome = true) :
    dfSelectCols df ns = .ok (ns.map (fun n => (n, colD df n))) := by
  induction ns with
  | nil => rfl
  | cons n t ih =>
    obtain ⟨c, hc⟩ := Option.isSome_iff_exists.mp (h n (by simp))
    have ht := ih (fun m hm => h m (by simp [hm]))
    simp [dfSelectCols, hc, ht, Except.map, colD]

theorem get_non_numeric_cols_nil (df : DF)
    (h : ∀ c ∈ df.cols, c.2.numeric = true) : get_non_numeric_cols df = [] := by
  unfold get_non_numeric_cols
  have : df.cols.filter (fun c => !c.2.numeric) = [] := by
    rw [List.filter_eq_nil_iff]
    intro c hc
    simp [h c hc]
  rw [this]
  rfl

/-! ### C1 -/

/-- C1: fails — the claim says every request with at least one non-numeric
column raises a `TypeError` naming all offenders; the source tests the
truthiness of the numpy array of offending names, so with one offender the
claimed `TypeError` is raised, but with two or more offenders numpy raises
`ValueError` (ambiguous truth value) instead.  This theorem evaluates
`create_residuals_df` at a frame with two non-numeric requested columns
(yielding the `ValueError`) and at one with a single non-numeric column
(yielding the documented `TypeError`). -/
theorem claim_C1_eval :
    create_residuals_df ⟨[("a", ⟨false, [.str "x"]⟩), ("b", ⟨false, [.str "y"]⟩)]⟩
        ["a", "b"] (some []) =
      .error (.valueError
        "The truth value of an array with more than one element is ambiguous. Use a.any() or a.all()") ∧
    create_residuals_df ⟨[("a", ⟨false, [.str "x"]⟩)]⟩ ["a"] (some []) =
      .error (.typeError "DataFrame columns a are non numeric") :=
  ⟨rfl, rfl⟩

/-! ### C2 -/

/-- C2: fails — the source assigns the shuffled column into the caller's
frame itself (not a working copy), and the final
`df.drop(columns=[group_rand])` is a no-op since its result is discarded,
so the caller's frame gains a `grp_rand` column.  Evaluating the model at a
two-row frame shows the returned top-level frame carries the extra column
and differs from the input. -/
theorem claim_C2_eval :
    split_groups ⟨[("grp", ⟨false, [.str "A", .str "B"]⟩)]⟩ "grp" true [1, 0] =
      .ok ([("grp_rand_B", ⟨[("grp", ⟨false, [.str "A"]⟩),
                            ("grp_rand", ⟨false, [.str "B"]⟩)]⟩),
            ("grp_rand_A", ⟨[("grp", ⟨false, [.str "B"]⟩),
                            ("grp_rand", ⟨false, [.str "A"]⟩)]⟩)],
           ⟨[("grp", ⟨false, [.str "A", .str "B"]⟩),
             ("grp_rand", ⟨false, [.str "B", .str "A"]⟩)]⟩) ∧
    (⟨[("grp", ⟨false, [.str "A", .str "B"]⟩),
       ("grp_rand", ⟨false, [.str "B", .str "A"]⟩)]⟩ : DF) ≠
      ⟨[("grp", ⟨false, [.str "A", .str "B"]⟩)]⟩ :=
  ⟨rfl, by decide⟩

/-! ### C3 -/

/-- C3: fails — the claim says `create_corrmat` validates only the selected
columns, but the source computes `get_non_numeric_cols(df_res)` over the
whole frame.  A frame with a numeric column `a` and a non-selected string
column `b`, correlated over `names=["a"]`, is rejected with the `TypeError`
naming `b`, while the claim requires success. -/
theorem claim_C3_eval :
    create_corrmat ⟨[("a", ⟨true, [.num 1, .num 2]⟩),
                     ("b", ⟨false, [.str "x", .str "y"]⟩)]⟩
        (some ["a"]) .pearson =
      .error (.typeError "DataFrame columns b are non numeric") := rfl

/-! ### C9 -/

/-- C9: calling `corrmat_from_regionalmeasures` with the default
`covars=None` always fails with the `TypeError` raised by the list
concatenation `names + covars` inside `create_residuals_df`, before any
validation or numeric computation, for every frame, name list and method. -/
theorem claim_C9 (df : DF) (names : List String) (method : CorrMethod) :
    corrmat_from_regionalmeasures df names none method =
      .error (.typeError concatNoneMsg) := rfl

/-- C9 witness at a concrete frame. -/
theorem claim_C9_witness :
    corrmat_from_regionalmeasures ⟨[("a", ⟨true, [.num 1]⟩)]⟩ ["a"] none .pearson =
      .error (.typeError concatNoneMsg) :=
  claim_C9 ⟨[("a", ⟨true, [.num 1]⟩)]⟩ ["a"] .pearson

/-! ### C10 -/

/-- C10: a destination with no directory component (empty `dirname`) makes
`save_mat` fail with the `FileNotFoundError` of `os.makedirs` on the empty
string, for every file-system state and matrix; no file is written (the
state is only returned on success). -/
theorem claim_C10 (fs : FS) (M : List (List ℚ)) (name : String)
    (h : dirname name = "") :
    save_mat fs M name = .error (.fileNotFoundError "No such file or directory") := by
  unfold save_mat
  rw [h]
  simp [os_isdir, makedirs]

/-- C10 witness: a bare filename in a writable working directory. -/
theorem claim_C10_witness :
    dirname "m.txt" = "" ∧
    save_mat ⟨["x"], []⟩ [[1]] "m.txt" =
      .error (.fileNotFoundError "No such file or directory") :=
  ⟨by decide, claim_C10 ⟨["x"], []⟩ [[1]] "m.txt" (by decide)⟩

/-! ### C6 -/

theorem fileWrite_match (files : List (String × String)) (n s : String)
    (h : files.any (fun f => f.1 == n) = true) :
    (files.map (fun f => if f.1 == n then (n, s) else f)).find?
      (fun f => f.1 == n) = some (n, s) := by
  induction files with
  | nil => cases h
  | cons f t ih =>
    by_cases hf : (f.1 == n) = true
    · simp [hf, List.find?]
    · have ht : t.any (fun f => f.1 == n) = true := by
        simpa [hf] using h
      rw [List.map_cons, if_neg hf]
      have hf2 : (f.1 == n) = false := by simpa using hf
      simp only [List.find?, hf2]
      exact ih ht

theorem fileWrite_nomatch (files : List (String × String))
    (p : String × String → Bool) (x : String × String)
    (h : files.any p = false) :
    (files ++ [x]).find? p = if p x then some x else none := by
  induction files with
  | nil => cases hpx : p x <;> simp [List.find?, hpx]
  | cons f t ih =>
    have hf : p f = false := by
      cases hpf : p f
      · rfl
      · rw [List.any_cons, hpf] at h; simp at h
    have ht : t.any p = false := by
      rw [List.any_cons, hf] at h; simpa using h
    simp only [List.cons_append, List.find?, hf]
    exact ih ht

theorem lookupFile_fileWrite (ds : List String) (files : List (String × String))
    (n s : String) :
    lookupFile ⟨ds, fileWrite files n s⟩ n = some s := by
  unfold lookupFile fileWrite
  by_cases h : files.any (fun f => f.1 == n) = true
  · rw [if_pos h]
    rw [fileWrite_match files n s h]
    rfl
  · rw [if_neg h]
    have := fileWrite_nomatch files (fun f => f.1 == n) (n, s)
      (by cases hx : files.any (fun f => f.1 == n); rfl; exact absurd hx h)
    simp only [this]
    simp

/-- C6: with a nonempty directory part whose prefixes are not blocked by
files and do not yet form an existing directory, `save_mat` creates every
missing directory of the chain and writes the tab-delimited fixed-point
rendering of the matrix, every line newline-terminated; on the concrete
matrix `[[1.0, 0.5], [0.5, 1.0]]` and destination `out/subdir/m.txt` in an
empty file system it creates `out` and `out/subdir` and writes exactly the
two lines `1.00000TAB0.50000` and `0.50000TAB1.00000`. -/
theorem claim_C6 :
    (∀ (M : List (List ℚ)) (fs : FS) (name : String),
      dirname name ≠ "" →
      os_isdir fs (dirname name) = false →
      ((ancestors (dirname name)).any
          (fun p => fs.files.any (fun f => f.1 == p))) = false →
      ∃ fs1, save_mat fs M name = .ok fs1 ∧
        (∀ p ∈ ancestors (dirname name), p ∈ fs1.dirs) ∧
        lookupFile fs1 name = some (savetxt M)) ∧
    save_mat ⟨[], []⟩ [[1, mkRat 1 2], [mkRat 1 2, 1]] "out/subdir/m.txt" =
      .ok ⟨["out", "out/subdir"],
           [("out/subdir/m.txt", "1.00000\t0.50000\n0.50000\t1.00000\n")]⟩ := by
  constructor
  · intro M fs name h1 h2 h3
    unfold save_mat
    rw [if_neg (by rw [h2]; simp)]
    unfold makedirs
    rw [if_neg h1, if_neg (by simp [h3])]
    refine ⟨_, rfl, ?_, lookupFile_fileWrite _ _ _ _⟩
    intro p hp
    by_cases hmem : p ∈ fs.dirs
    · exact List.mem_append.mpr (Or.inl hmem)
    · refine List.mem_append.mpr (Or.inr ?_)
      rw [List.mem_filter]
      refine ⟨hp, ?_⟩
      simp [hmem]
  · decide

/-- C6 witness: the general statement applied at the concrete example. -/
theorem claim_C6_witness :
    (dirname "out/subdir/m.txt" ≠ "" ∧
     os_isdir ⟨[], []⟩ (dirname "out/subdir/m.txt") = false ∧
     ((ancestors (dirname "out/subdir/m.txt")).any
        (fun p => ([] : List (String × String)).any (fun f => f.1 == p))) = false) ∧
    ∃ fs1, save_mat ⟨[], []⟩ [[1, mkRat 1 2], [mkRat 1 2, 1]] "out/subdir/m.txt" = .ok fs1 ∧
      (∀ p ∈ ancestors (dirname "out/subdir/m.txt"), p ∈ fs1.dirs) ∧
      lookupFile fs1 "out/subdir/m.txt" =
        some (savetxt [[1, mkRat 1 2], [mkRat 1 2, 1]]) :=
  ⟨⟨by decide, by decide, by decide⟩,
   claim_C6.1 [[1, mkRat 1 2], [mkRat 1 2, 1]] ⟨[], []⟩ "out/subdir/m.txt"
     (by decide) (by decide) (by decide)⟩

/-! ### C5 -/

theorem foldl_pyDictInsert (kf : Val → String) (vf : Val → DF) :
    ∀ (vs : List Val) (acc : List (String × DF)),
      (acc.map Prod.fst ++ vs.map kf).Nodup →
      vs.foldl (fun a v => pyDictInsert a (kf v) (vf v)) acc =
        acc ++ vs.map (fun v => (kf v, vf v)) := by
  intro vs
  induction vs with
  | nil => intro acc _; simp
  | cons v t ih =>
    intro acc h
    have hdisj : (acc.map Prod.fst).Disjoint (kf v :: t.map kf) := by
      rw [List.map_cons] at h
      exact (List.nodup_append.mp h).2.2
    have hnew : acc.any (fun p => p.1 == kf v) = false := by
      rw [List.any_eq_false]
      intro p hp
      simp only [beq_iff_eq]
      intro hpk
      have h1 : kf v ∈ acc.map Prod.fst := by
        rw [← hpk]; exact List.mem_map_of_mem Prod.fst hp
      exact hdisj h1 (List.mem_cons_self _ _)
    rw [List.foldl_cons]
    have hstep : pyDictInsert acc (kf v) (vf v) = acc ++ [(kf v, vf v)] := by
      unfold pyDictInsert
      rw [hnew]
      simp
    rw [hstep]
    rw [ih (acc ++ [(kf v, vf v)]) ?hnd]
    · simp
    case hnd =>
      rw [List.map_append, List.append_assoc]
      simpa using h

theorem splitLoop_eq (df1 : DF) (gv : String) (col : Column)
    (hk : (col.vals.dedup.map (mkGroupKey gv)).Nodup) :
    splitLoop df1 gv col =
      col.vals.dedup.map (fun v =>
        (mkGroupKey gv v, dfMaskRows df1 (col.vals.map (fun w => w == v)))) := by
  unfold splitLoop
  rw [foldl_pyDictInsert (mkGroupKey gv)
    (fun v => dfMaskRows df1 (col.vals.map (fun w => w == v))) col.vals.dedup []
    (by simpa using hk)]
  simp

theorem maskFilter_map_self {α : Type} (vs : List α) (f : α → Bool) :
    maskFilter vs (vs.map f) = vs.filter f := by
  induction vs with
  | nil => rfl
  | cons a t ih =>
    unfold maskFilter at ih ⊢
    cases h : f a <;>
      simp only [List.map_cons, List.zip_cons_cons, List.filter_cons, h] <;>
      simp [ih, h]

/-- C5 counterexample: the claim fails as universally stated.  On a group
column holding the two distinct values `1` (numeric) and `"1"` (string),
both format to the key `g_1`, the dictionary keeps only the later entry, so
only one subset is returned for two distinct present values, and the rows
of the numeric-`1` value appear in no subset. -/
theorem claim_C5_counterexample :
    split_groups ⟨[("g", ⟨false, [.num 1, .str "1"]⟩)]⟩ "g" false [] =
      .ok ([("g_1", ⟨[("g", ⟨false, [.str "1"]⟩)]⟩)],
           ⟨[("g", ⟨false, [.num 1, .str "1"]⟩)]⟩) ∧
    ([Val.num 1, Val.str "1"].dedup).length = 2 :=
  ⟨by decide, by decide⟩

/-- C5 (amended): provided the distinct values present in the group column
format to pairwise distinct keys (as for any column of values of a single
type), `split_groups` with `shuffle=False` returns one subset per distinct
value `v`, keyed `{group_variable}_{v}`, holding exactly the rows whose
group column equals `v`; the subsets partition the input rows (the masked
group column of the `v`-subset has `count v` rows and these counts sum to
the row count), and the input frame is returned unchanged. -/
theorem claim_C5_amended (df : DF) (g : String) (col : Column)
    (hcol : dfLookup df g = some col)
    (hk : (col.vals.dedup.map (mkGroupKey g)).Nodup) :
    split_groups df g false [] =
      .ok (col.vals.dedup.map (fun v =>
            (mkGroupKey g v, dfMaskRows df (col.vals.map (fun w => w == v)))), df) ∧
    (∀ v ∈ col.vals.dedup,
       (maskFilter col.vals (col.vals.map (fun w => w == v))).length =
         col.vals.count v) ∧
    (col.vals.dedup.map (fun v => col.vals.count v)).sum = col.vals.length := by
  refine ⟨?_, ?_, List.sum_map_count_dedup_eq_length col.vals⟩
  · unfold split_groups
    rw [if_neg (by simp), hcol]
    show Except.ok (splitLoop df g col, df) = _
    rw [splitLoop_eq df g col hk]
  · intro v _
    rw [maskFilter_map_self]
    rw [List.count, List.countP_eq_length_filter]

/-- C5 witness: the amended statement at the spec's own example, a group
column `[A, A, B, B, B]` over five rows with a measurement column. -/
theorem claim_C5_witness :
    (dfLookup ⟨[("group", ⟨false, [.str "A", .str "A", .str "B", .str "B", .str "B"]⟩),
                ("m", ⟨true, [.num 1, .num 2, .num 3, .num 4, .num 5]⟩)]⟩ "group" =
       some ⟨false, [.str "A", .str "A", .str "B", .str "B", .str "B"]⟩ ∧
     (([Val.str "A", .str "A", .str "B", .str "B", .str "B"].dedup).map
        (mkGroupKey "group")).Nodup) ∧
    (split_groups ⟨[("group", ⟨false, [.str "A", .str "A", .str "B", .str "B", .str "B"]⟩),
                    ("m", ⟨true, [.num 1, .num 2, .num 3, .num 4, .num 5]⟩)]⟩
        "group" false [] =
      .ok (([Val.str "A", .str "A", .str "B", .str "B", .str "B"].dedup).map (fun v =>
            (mkGroupKey "group" v,
             dfMaskRows ⟨[("group", ⟨false, [.str "A", .str "A", .str "B", .str "B", .str "B"]⟩),
                          ("m", ⟨true, [.num 1, .num 2, .num 3, .num 4, .num 5]⟩)]⟩
               ([Val.str "A", .str "A", .str "B", .str "B", .str "B"].map (fun w => w == v)))),
           ⟨[("group", ⟨false, [.str "A", .str "A", .str "B", .str "B", .str "B"]⟩),
             ("m", ⟨true, [.num 1, .num 2, .num 3, .num 4, .num 5]⟩)]⟩) ∧
     (∀ v ∈ [Val.str "A", .str "A", .str "B", .str "B", .str "B"].dedup,
        (maskFilter [Val.str "A", .str "A", .str "B", .str "B", .str "B"]
          ([Val.str "A", .str "A", .str "B", .str "B", .str "B"].map (fun w => w == v))).length =
          [Val.str "A", .str "A", .str "B", .str "B", .str "B"].count v) ∧
     (([Val.str "A", .str "A", .str "B", .str "B", .str "B"].dedup).map
        (fun v => [Val.str "A", .str "A", .str "B", .str "B", .str "B"].count v)).sum =
       [Val.str "A", .str "A", .str "B", .str "B", .str "B"].length) :=
  ⟨⟨by decide, by decide⟩,
   claim_C5_amended
     ⟨[("group", ⟨false, [.str "A", .str "A", .str "B", .str "B", .str "B"]⟩),
       ("m", ⟨true, [.num 1, .num 2, .num 3, .num 4, .num 5]⟩)]⟩
     "group" ⟨false, [.str "A", .str "A", .str "B", .str "B", .str "B"]⟩
     (by decide) (by decide)⟩

/-! ### C8 -/

theorem replaceCol_find (n : String) (c : Column) :
    ∀ (l : List (String × Column)), l.any (fun p => p.1 == n) = true →
      (l.map (fun p => if p.1 == n then (n, c) else p)).find?
        (fun p => p.1 == n) = some (n, c) := by
  intro l
  induction l with
  | nil => intro h; cases h
  | cons f t ih =>
    intro h
    by_cases hf : (f.1 == n) = true
    · simp [hf, List.find?]
    · have ht : t.any (fun p => p.1 == n) = true := by
        simpa [hf] using h
      rw [List.map_cons, if_neg hf]
      have hf2 : (f.1 == n) = false := by simpa using hf
      simp only [List.find?, hf2]
      exact ih ht

theorem appendCol_find (q : String × Column → Bool) (x : String × Column) :
    ∀ (l : List (String × Column)), l.any q = false →
      (l ++ [x]).find? q = if q x then some x else none := by
  intro l
  induction l with
  | nil => intro _; cases hpx : q x <;> simp [List.find?, hpx]
  | cons f t ih =>
    intro h
    have hf : q f = false := by
      cases hpf : q f
      · rfl
      · rw [List.any_cons, hpf] at h; simp at h
    have ht : t.any q = false := by
      rw [List.any_cons, hf] at h; simpa using h
    simp only [List.cons_append, List.find?, hf]
    exact ih ht

theorem dfAssign_lookup (df : DF) (n : String) (c : Column) :
    dfLookup (dfAssign df n c) n = some c := by
  by_cases h : df.cols.any (fun p => p.1 == n) = true
  · have hassign : dfAssign df n c =
        ⟨df.cols.map (fun p => if p.1 == n then (n, c) else p)⟩ := by
      unfold dfAssign; rw [if_pos h]
    rw [hassign]
    unfold dfLookup
    rw [replaceCol_find n c df.cols h]
    rfl
  · have hassign : dfAssign df n c = ⟨df.cols ++ [(n, c)]⟩ := by
      unfold dfAssign; rw [if_neg h]
    rw [hassign]
    unfold dfLookup
    have hfalse : df.cols.any (fun p => p.1 == n) = false := by
      cases hx : df.cols.any (fun p => p.1 == n)
      · rfl
      · exact absurd hx h
    rw [appendCol_find (fun p => p.1 == n) (n, c) df.cols hfalse]
    simp

theorem filterMap_getQ (vals : List Val) :
    ∀ (l : List Nat), (∀ i ∈ l, i < vals.length) →
      l.filterMap (fun i => vals.get? i) =
        l.map (fun i => vals.getD i (Val.str "")) := by
  intro l
  induction l with
  | nil => intro _; rfl
  | cons i t ih =>
    intro h
    have hi : i < vals.length := h i (List.mem_cons_self _ _)
    obtain ⟨v, hv⟩ : ∃ v, vals.get? i = some v := by
      rw [List.get?_eq_get hi]; exact ⟨_, rfl⟩
    rw [List.filterMap_cons, List.map_cons, hv,
      ih (fun j hj => h j (List.mem_cons_of_mem _ hj))]
    rw [List.getD_eq_getElem?_getD, ← List.get?_eq_getElem?, hv]
    rfl

theorem range_map_getD {α : Type} (d : α) :
    ∀ (l : List α), (List.range l.length).map (fun i => l.getD i d) = l := by
  intro l
  induction l with
  | nil => simp
  | cons a t ih =>
    rw [List.length_cons, List.range_succ_eq_map, List.map_cons, List.map_map]
    have hcomp : ((fun i => (a :: t).getD i d) ∘ Nat.succ) = (fun i => t.getD i d) := by
      funext i; rfl
    rw [hcomp, ih]
    rfl

theorem perm_shuffled (vals : List Val) (σ : List Nat)
    (hσ : σ.Perm (List.range vals.length)) :
    (σ.filterMap (fun i => vals.get? i)).Perm vals := by
  have hlt : ∀ i ∈ σ, i < vals.length := fun i hi =>
    List.mem_range.mp (hσ.mem_iff.mp hi)
  rw [filterMap_getQ vals σ hlt]
  have h2 := hσ.map (fun i => vals.getD i (Val.str ""))
  rw [range_map_getD] at h2
  exact h2

/-- C8: with `shuffle=True`, the auxiliary column used for partitioning is
`np.random.permutation` of the group column (modelled by an arbitrary
permutation `σ` of the row indices), so its values are a permutation — the
same multiset, with identical per-value counts — of the original group
column's values. -/
theorem claim_C8 (df : DF) (g : String) (col : Column) (σ : List Nat)
    (hcol : dfLookup df g = some col)
    (hσ : σ.Perm (List.range col.vals.length)) :
    ∃ d df1, split_groups df g true σ = .ok (d, df1) ∧
      ∃ c1, dfLookup df1 (g ++ "_rand") = some c1 ∧ c1.vals.Perm col.vals := by
  have hl := dfAssign_lookup df (g ++ "_rand")
    ⟨col.numeric, σ.filterMap (fun i => col.vals.get? i)⟩
  have heq : split_groups df g true σ =
      .ok (splitLoop
             (dfAssign df (g ++ "_rand")
               ⟨col.numeric, σ.filterMap (fun i => col.vals.get? i)⟩)
             (g ++ "_rand")
             ⟨col.numeric, σ.filterMap (fun i => col.vals.get? i)⟩,
           dfAssign df (g ++ "_rand")
             ⟨col.numeric, σ.filterMap (fun i => col.vals.get? i)⟩) := by
    simp only [split_groups, hcol, hl, if_true]
  exact ⟨_, _, heq, ⟨_, hl, perm_shuffled col.vals σ hσ⟩⟩

/-- C8 witness: a two-row group column shuffled by the transposition. -/
theorem claim_C8_witness :
    (dfLookup ⟨[("g", ⟨false, [.str "A", .str "B"]⟩)]⟩ "g" =
       some ⟨false, [.str "A", .str "B"]⟩ ∧
     ([1, 0] : List Nat).Perm
       (List.range ([Val.str "A", Val.str "B"] : List Val).length)) ∧
    (∃ d df1,
       split_groups ⟨[("g", ⟨false, [.str "A", .str "B"]⟩)]⟩ "g" true [1, 0] =
         .ok (d, df1) ∧
       ∃ c1, dfLookup df1 ("g" ++ "_rand") = some c1 ∧
         c1.vals.Perm [Val.str "A", Val.str "B"]) :=
  ⟨⟨by decide, by decide⟩,
   claim_C8 ⟨[("g", ⟨false, [.str "A", .str "B"]⟩)]⟩ "g"
     ⟨false, [.str "A", .str "B"]⟩ [1, 0] (by decide) (by decide)⟩

/-! ### C4 -/

theorem any_key_of_mem (l : List (String × Column)) (n : String)
    (h : n ∈ l.map Prod.fst) : l.any (fun p => p.1 == n) = true := by
  rw [List.any_eq_true]
  obtain ⟨p, hp, hpn⟩ := List.mem_map.mp h
  exact ⟨p, hp, by simp [hpn]⟩

theorem dfSetVals_cols (df : DF) (n : String) (vs : List ℚ)
    (h : df.cols.any (fun p => p.1 == n) = true) :
    (dfSetVals df n vs).cols =
      df.cols.map (fun p =>
        if p.1 == n then (n, (⟨true, vs.map Val.num⟩ : Column)) else p) := by
  unfold dfSetVals dfAssign
  rw [if_pos h]

theorem dfSetVals_fst (df : DF) (n : String) (vs : List ℚ)
    (h : n ∈ df.cols.map Prod.fst) :
    (dfSetVals df n vs).cols.map Prod.fst = df.cols.map Prod.fst := by
  rw [dfSetVals_cols df n vs (any_key_of_mem _ _ h), List.map_map]
  apply List.map_congr_left
  intro p _
  by_cases hp : (p.1 == n) = true
  · show (if (p.1 == n) = true then ((n, (⟨true, vs.map Val.num⟩ : Column))) else p).1 = p.1
    rw [if_pos hp]
    exact (beq_iff_eq.mp hp).symm
  · show (if (p.1 == n) = true then ((n, (⟨true, vs.map Val.num⟩ : Column))) else p).1 = p.1
    rw [if_neg hp]

theorem foldl_setvals (resV : String → List ℚ) :
    ∀ (ms : List String) (acc : DF), (∀ m ∈ ms, m ∈ acc.cols.map Prod.fst) →
      (ms.foldl (fun a nm => dfSetVals a nm (resV nm)) acc).cols =
        acc.cols.map (fun p =>
          if p.1 ∈ ms then (p.1, (⟨true, (resV p.1).map Val.num⟩ : Column)) else p) := by
  intro ms
  induction ms with
  | nil =>
    intro acc _
    simp
  | cons m t ih =>
    intro acc hmem
    rw [List.foldl_cons]
    have hm : m ∈ acc.cols.map Prod.fst := hmem m (List.mem_cons_self _ _)
    have hmemt : ∀ x ∈ t, x ∈ (dfSetVals acc m (resV m)).cols.map Prod.fst := by
      intro x hx
      rw [dfSetVals_fst acc m (resV m) hm]
      exact hmem x (List.mem_cons_of_mem _ hx)
    rw [ih (dfSetVals acc m (resV m)) hmemt]
    rw [dfSetVals_cols acc m (resV m) (any_key_of_mem _ _ hm), List.map_map]
    apply List.map_congr_left
    intro p _
    by_cases hpm : (p.1 == m) = true
    · have hp1 : p.1 = m := beq_iff_eq.mp hpm
      by_cases hmt : m ∈ t <;>
        simp [hpm, hp1, List.mem_cons, hmt]
    · have hp1 : p.1 ≠ m := by simpa using hpm
      by_cases hpt : p.1 ∈ t <;>
        simp [hpm, List.mem_cons, hp1, hpt]

theorem residuals_length (x : List (List ℚ)) (y : List ℚ) :
    (residuals x y).length = y.length := by
  unfold residuals
  simp

theorem colRat_length (df : DF) (n : String) (c : Column)
    (h : dfLookup df n = some c) : (colRat df n).length = c.vals.length := by
  unfold colRat
  rw [h]
  simp

/-- C4: with all requested (region and covariate) columns numeric, on a
well-formed frame, `create_residuals_df` succeeds and returns the frame
whose columns are exactly the region names, in order, each holding the
residuals of the corresponding original column against the covariate
design, index-aligned; in particular the column-name list equals `names`
and every column has the input's row count. -/
theorem claim_C4 (df : DF) (names covars : List String)
    (hwf : DF.WF df) (_hne : names ≠ [])
    (hnum : ∀ n ∈ names ++ covars, dfColNumeric df n = true) :
    ∃ df2, create_residuals_df df names (some covars) = .ok df2 ∧
      df2.cols = names.map (fun n =>
        (n, (⟨true, (residuals (designX df covars) (colRat df n)).map Val.num⟩ : Column))) ∧
      df2.cols.map Prod.fst = names ∧
      (∀ p ∈ df2.cols, p.2.vals.length = nRows df) := by
  have hsome : ∀ n ∈ names ++ covars, (dfLookup df n).isSome = true :=
    fun n hn => dfColNumeric_isSome df n (hnum n hn)
  have hsel := dfSelectCols_ok df (names ++ covars) hsome
  have hselnames := dfSelectCols_ok df names
    (fun n hn => hsome n (List.mem_append_left _ hn))
  have hnumD : ∀ n ∈ names ++ covars, (colD df n).numeric = true := by
    intro n hn
    have hx := hnum n hn
    unfold dfColNumeric at hx
    unfold colD
    cases hl : dfLookup df n with
    | none => rw [hl] at hx; cases hx
    | some cc => rw [hl] at hx; simpa using hx
  have hnn : get_non_numeric_cols
      ⟨(names ++ covars).map (fun n => (n, colD df n))⟩ = [] := by
    apply get_non_numeric_cols_nil
    intro c hc
    obtain ⟨n, hn, hcn⟩ := List.mem_map.mp hc
    rw [← hcn]
    exact hnumD n hn
  have hmain : create_residuals_df df names (some covars) =
      .ok (names.foldl
        (fun acc n => dfSetVals acc n (residuals (designX df covars) (colRat df n)))
        ⟨names.map (fun n => (n, colD df n))⟩) := by
    simp only [create_residuals_df, dfSelect, hsel, hselnames, Except.map, hnn,
      npArrayTruthy]
  have hmem0 : ∀ m ∈ names,
      m ∈ (DF.mk (names.map (fun n => (n, colD df n)))).cols.map Prod.fst := by
    intro m hm
    simpa [List.map_map, Function.comp] using hm
  have hfold := foldl_setvals
    (fun n => residuals (designX df covars) (colRat df n)) names
    ⟨names.map (fun n => (n, colD df n))⟩ hmem0
  have hcols : (names.foldl
      (fun acc n => dfSetVals acc n (residuals (designX df covars) (colRat df n)))
      ⟨names.map (fun n => (n, colD df n))⟩).cols =
      names.map (fun n =>
        (n, (⟨true, (residuals (designX df covars) (colRat df n)).map Val.num⟩ : Column))) := by
    rw [hfold, List.map_map]
    apply List.map_congr_left
    intro n hn
    simp [hn]
  refine ⟨_, hmain, hcols, ?_, ?_⟩
  · rw [hcols, List.map_map]
    have hid : (Prod.fst ∘ fun n =>
        (n, (⟨true, (residuals (designX df covars) (colRat df n)).map Val.num⟩ : Column))) =
        fun n => n := by
      funext n; rfl
    rw [hid]
    exact List.map_id names
  · intro p hp
    rw [hcols] at hp
    obtain ⟨n, hn, hpn⟩ := List.mem_map.mp hp
    rw [← hpn]
    show ((residuals (designX df covars) (colRat df n)).map Val.num).length = nRows df
    rw [List.length_map, residuals_length]
    have hx := hnum n (List.mem_append_left _ hn)
    unfold dfColNumeric at hx
    cases hl : dfLookup df n with
    | none => rw [hl] at hx; cases hx
    | some cc =>
      rw [colRat_length df n cc hl]
      exact hwf.2.1 (n, cc) (dfLookup_mem df n cc hl)

/-- C4 witness: a three-row frame with one region and one covariate. -/
theorem claim_C4_witness :
    (DF.WF ⟨[("r", ⟨true, [.num 1, .num 2, .num 3]⟩),
             ("age", ⟨true, [.num 2, .num 4, .num 6]⟩)]⟩ ∧
     (["r"] : List String) ≠ [] ∧
     (∀ n ∈ (["r"] ++ ["age"] : List String),
        dfColNumeric ⟨[("r", ⟨true, [.num 1, .num 2, .num 3]⟩),
                       ("age", ⟨true, [.num 2, .num 4, .num 6]⟩)]⟩ n = true)) ∧
    (∃ df2, create_residuals_df
        ⟨[("r", ⟨true, [.num 1, .num 2, .num 3]⟩),
          ("age", ⟨true, [.num 2, .num 4, .num 6]⟩)]⟩ ["r"] (some ["age"]) = .ok df2 ∧
      df2.cols = (["r"] : List String).map (fun n =>
        (n, (⟨true, (residuals
              (designX ⟨[("r", ⟨true, [.num 1, .num 2, .num 3]⟩),
                         ("age", ⟨true, [.num 2, .num 4, .num 6]⟩)]⟩ ["age"])
              (colRat ⟨[("r", ⟨true, [.num 1, .num 2, .num 3]⟩),
                        ("age", ⟨true, [.num 2, .num 4, .num 6]⟩)]⟩ n)).map Val.num⟩ : Column))) ∧
      df2.cols.map Prod.fst = ["r"] ∧
      (∀ p ∈ df2.cols, p.2.vals.length =
        nRows ⟨[("r", ⟨true, [.num 1, .num 2, .num 3]⟩),
                ("age", ⟨true, [.num 2, .num 4, .num 6]⟩)]⟩)) :=
  ⟨⟨by decide, by decide, by decide⟩,
   claim_C4 ⟨[("r", ⟨true, [.num 1, .num 2, .num 3]⟩),
              ("age", ⟨true, [.num 2, .num 4, .num 6]⟩)]⟩ ["r"] ["age"]
     (by decide) (by decide) (by decide)⟩

/-! ### C7: variance and Pearson lemmas -/

theorem zip_self_eq {α : Type} (l : List α) : l.zip l = l.map (fun a => (a, a)) := by
  induction l with
  | nil => rfl
  | cons a t ih => simp [ih]

theorem svar_eq (x : List ℚ) :
    svar x = (x.map (fun a => (a - qmean x) * (a - qmean x))).sum := by
  unfold svar scov
  rw [zip_self_eq, List.map_map]
  rfl

theorem svar_nonneg (x : List ℚ) : 0 ≤ svar x := by
  rw [svar_eq]
  apply List.sum_nonneg
  intro a ha
  obtain ⟨b, _, rfl⟩ := List.mem_map.mp ha
  exact mul_self_nonneg _

theorem sum_nonneg_all_zero (l : List ℚ) (hn : ∀ a ∈ l, 0 ≤ a) (h : l.sum = 0) :
    ∀ a ∈ l, a = 0 := by
  induction l with
  | nil => simp
  | cons a t ih =>
    have ha : 0 ≤ a := hn a (List.mem_cons_self _ _)
    have ht0 : 0 ≤ t.sum := List.sum_nonneg (fun b hb => hn b (List.mem_cons_of_mem _ hb))
    rw [List.sum_cons] at h
    have ha0 : a = 0 := le_antisymm (by linarith) ha
    have hts : t.sum = 0 := by linarith
    intro b hb
    rcases List.mem_cons.mp hb with rfl | hb2
    · exact ha0
    · exact ih (fun c hc => hn c (List.mem_cons_of_mem _ hc)) hts b hb2

theorem svar_zero_all_mean (x : List ℚ) (h : svar x = 0) :
    ∀ a ∈ x, a = qmean x := by
  rw [svar_eq] at h
  intro a ha
  have hmem : (a - qmean x) * (a - qmean x) ∈
      x.map (fun b => (b - qmean x) * (b - qmean x)) :=
    List.mem_map_of_mem _ ha
  have hz := sum_nonneg_all_zero _ ?nn h _ hmem
  · have h2 := mul_self_eq_zero.mp hz
    linarith
  case nn =>
    intro b hb
    obtain ⟨c, _, rfl⟩ := List.mem_map.mp hb
    exact mul_self_nonneg _

theorem svar_ne_of_exists (x : List ℚ)
    (h : ∃ a ∈ x, ∃ b ∈ x, a ≠ b) : svar x ≠ 0 := by
  obtain ⟨a, ha, b, hb, hab⟩ := h
  intro h0
  exact hab ((svar_zero_all_mean x h0 a ha).trans (svar_zero_all_mean x h0 b hb).symm)

theorem exists_ne_of_svar_ne (x : List ℚ) (h : svar x ≠ 0) :
    ∃ a ∈ x, ∃ b ∈ x, a ≠ b := by
  by_contra hall
  push_neg at hall
  apply h
  cases hx : x with
  | nil => subst hx; rfl
  | cons a t =>
    subst hx
    have hrep : a :: t = List.replicate (a :: t).length a :=
      List.eq_replicate_of_mem (fun b hb => hall b hb a (List.mem_cons_self _ _))
    have hs : ∀ (n : Nat), n ≠ 0 → svar (List.replicate n a) = 0 := by
      intro n hn
      have hmean : qmean (List.replicate n a) = a := by
        unfold qmean
        rw [List.sum_replicate, List.length_replicate, nsmul_eq_mul]
        exact mul_div_cancel_left₀ a (Nat.cast_ne_zero.mpr hn)
      rw [svar_eq, hmean]
      have hmap : (List.replicate n a).map (fun b => (b - a) * (b - a)) =
          List.replicate n 0 := by
        rw [List.map_replicate]
        simp
      rw [hmap, List.sum_replicate]
      simp
    rw [hrep]
    exact hs _ (by simp)

theorem zip_map_sum_comm (f g : ℚ → ℚ) :
    ∀ (x y : List ℚ),
      ((x.zip y).map (fun p => f p.1 * g p.2)).sum =
        ((y.zip x).map (fun p => g p.1 * f p.2)).sum := by
  intro x
  induction x with
  | nil => intro y; cases y <;> simp
  | cons a t ih =>
    intro y
    cases y with
    | nil => simp
    | cons b u =>
      simp only [List.zip_cons_cons, List.map_cons, List.sum_cons, ih u]
      rw [mul_comm]

theorem scov_comm (x y : List ℚ) : scov x y = scov y x := by
  unfold scov
  exact zip_map_sum_comm (fun v => v - qmean x) (fun v => v - qmean y) x y

theorem pearsonCorr_comm (x y : List ℚ) : pearsonCorr x y = pearsonCorr y x := by
  unfold pearsonCorr
  by_cases h : svar x = 0 ∨ svar y = 0
  · rw [if_pos h, if_pos (Or.symm h)]
  · rw [if_neg h, if_neg (fun hc => h (Or.symm hc))]
    rw [scov_comm, mul_comm]

theorem pearsonCorr_self (x : List ℚ) (h : svar x ≠ 0) :
    pearsonCorr x x = some 1 := by
  unfold pearsonCorr
  rw [if_neg (by tauto)]
  have h0 : (0 : ℝ) ≤ (svar x : ℝ) := by exact_mod_cast svar_nonneg x
  have hsc : scov x x = svar x := rfl
  rw [hsc, Real.mul_self_sqrt h0, div_self (by exact_mod_cast h)]

/-! ### C7: rank lemmas (Spearman) -/

theorem countP_lt_add_count_le (x : List ℚ) (a b : ℚ) (hab : a < b) :
    x.countP (fun w => decide (w < a)) + x.count a ≤
      x.countP (fun w => decide (w < b)) := by
  induction x with
  | nil => simp
  | cons c t ih =>
    rw [List.countP_cons, List.countP_cons, List.count_cons]
    by_cases h1 : c < a
    · have h2 : c < b := h1.trans hab
      have hne : (c == a) = false := by
        simp only [beq_eq_false_iff_ne, ne_eq]
        intro he
        rw [he] at h1
        exact lt_irrefl a h1
      simp [h1, h2, hne] <;> omega
    · by_cases h3 : c = a
      · subst h3
        simp [h1, hab] <;> omega
      · by_cases h2 : c < b <;> simp [h1, h2, h3] <;> omega

theorem count_pos_of_mem (x : List ℚ) (a : ℚ) (h : a ∈ x) : 1 ≤ x.count a :=
  List.count_pos_iff.mpr h

theorem rank_lt_rank (x : List ℚ) (a b : ℚ) (ha : a ∈ x) (hb : b ∈ x) (hab : a < b) :
    (x.countP (fun w => decide (w < a)) : ℚ) + ((x.count a : ℚ) + 1) / 2 <
      (x.countP (fun w => decide (w < b)) : ℚ) + ((x.count b : ℚ) + 1) / 2 := by
  have hc := countP_lt_add_count_le x a b hab
  have hca := count_pos_of_mem x a ha
  have hcb := count_pos_of_mem x b hb
  have hcq : (x.countP (fun w => decide (w < a)) : ℚ) + (x.count a : ℚ) ≤
      (x.countP (fun w => decide (w < b)) : ℚ) := by exact_mod_cast hc
  have hcaq : (1 : ℚ) ≤ (x.count a : ℚ) := by exact_mod_cast hca
  have hcbq : (1 : ℚ) ≤ (x.count b : ℚ) := by exact_mod_cast hcb
  linarith

theorem svar_rank_ne (x : List ℚ) (h : svar x ≠ 0) : svar (rankAvg x) ≠ 0 := by
  obtain ⟨a, ha, b, hb, hab⟩ := exists_ne_of_svar_ne x h
  apply svar_ne_of_exists
  rcases lt_or_gt_of_ne hab with hlt | hgt
  · exact ⟨_, List.mem_map_of_mem _ ha, _, List.mem_map_of_mem _ hb,
      ne_of_lt (rank_lt_rank x a b ha hb hlt)⟩
  · exact ⟨_, List.mem_map_of_mem _ ha, _, List.mem_map_of_mem _ hb,
      ne_of_gt (rank_lt_rank x b a hb ha hgt)⟩

/-! ### C7: Kendall lemmas -/

theorem upairs_map {α β : Type} (f : α → β) :
    ∀ (l : List α), upairs (l.map f) = (upairs l).map (fun p => (f p.1, f p.2)) := by
  intro l
  induction l with
  | nil => rfl
  | cons a t ih =>
    rw [List.map_cons]
    simp only [upairs]
    rw [ih, List.map_append, List.map_map, List.map_map]
    have h1 : t.map ((fun b => (f a, b)) ∘ f) =
        t.map ((fun p : α × α => (f p.1, f p.2)) ∘ (fun b => (a, b))) :=
      List.map_congr_left (fun b _ => rfl)
    rw [h1]

theorem exists_upair {α : Type} (l : List α) (a b : α)
    (ha : a ∈ l) (hb : b ∈ l) (hab : a ≠ b) :
    ∃ p ∈ upairs l, p.1 ≠ p.2 := by
  induction l with
  | nil => cases ha
  | cons c t ih =>
    rcases List.mem_cons.mp ha with rfl | ha2
    · rcases List.mem_cons.mp hb with rfl | hb2
      · exact absurd rfl hab
      · refine ⟨(a, b), ?_, hab⟩
        unfold upairs
        exact List.mem_append_left _ (List.mem_map_of_mem _ hb2)
    · rcases List.mem_cons.mp hb with rfl | hb2
      · refine ⟨(b, a), ?_, fun he => hab he.symm⟩
        unfold upairs
        exact List.mem_append_left _ (List.mem_map_of_mem _ ha2)
      · obtain ⟨p, hp, hpne⟩ := ih ha2 hb2
        refine ⟨p, ?_, hpne⟩
        unfold upairs
        exact List.mem_append_right _ hp

theorem untied_swap (x y : List ℚ) :
    untiedPairs (y.zip x) Prod.fst = untiedPairs (x.zip y) Prod.snd := by
  unfold untiedPairs
  rw [← List.zip_swap x y, upairs_map, List.countP_map]
  rfl

theorem untied_swap2 (x y : List ℚ) :
    untiedPairs (y.zip x) Prod.snd = untiedPairs (x.zip y) Prod.fst := by
  unfold untiedPairs
  rw [← List.zip_swap x y, upairs_map, List.countP_map]
  rfl

theorem kendallS_swap (x y : List ℚ) : kendallS (y.zip x) = kendallS (x.zip y) := by
  unfold kendallS
  rw [← List.zip_swap x y, upairs_map, List.map_map]
  apply congrArg List.sum
  apply List.map_congr_left
  intro p _
  show sgn (p.1.2 - p.2.2) * sgn (p.1.1 - p.2.1) = sgn (p.1.1 - p.2.1) * sgn (p.1.2 - p.2.2)
  exact mul_comm _ _

theorem kendallTauB_comm (x y : List ℚ) : kendallTauB x y = kendallTauB y x := by
  unfold kendallTauB
  rw [untied_swap x y, untied_swap2 x y, kendallS_swap x y]
  by_cases h : untiedPairs (x.zip y) Prod.fst = 0 ∨ untiedPairs (x.zip y) Prod.snd = 0
  · rw [if_pos h, if_pos (Or.symm h)]
  · rw [if_neg h, if_neg (fun hc => h (Or.symm hc))]
    rw [mul_comm]

theorem untied_self (x : List ℚ) :
    untiedPairs (x.zip x) Prod.fst =
      (upairs x).countP (fun p => decide (p.1 ≠ p.2)) := by
  unfold untiedPairs
  rw [zip_self_eq, upairs_map, List.countP_map]
  rfl

theorem untied_self2 (x : List ℚ) :
    untiedPairs (x.zip x) Prod.snd =
      (upairs x).countP (fun p => decide (p.1 ≠ p.2)) := by
  unfold untiedPairs
  rw [zip_self_eq, upairs_map, List.countP_map]
  rfl

theorem sum_sgn_sq (m : List (ℚ × ℚ)) :
    (m.map (fun p => sgn (p.1 - p.2) * sgn (p.1 - p.2))).sum =
      ((m.countP (fun p => decide (p.1 ≠ p.2)) : ℕ) : ℚ) := by
  induction m with
  | nil => simp
  | cons p t ih =>
    rw [List.map_cons, List.sum_cons, List.countP_cons, ih]
    by_cases hp : p.1 = p.2
    · have h0 : p.1 - p.2 = 0 := sub_eq_zero.mpr hp
      have hz : sgn (p.1 - p.2) = 0 := by simp [sgn, h0]
      rw [hz]
      simp [hp]
    · have hne : p.1 - p.2 ≠ 0 := sub_ne_zero.mpr hp
      have hsq : sgn (p.1 - p.2) * sgn (p.1 - p.2) = 1 := by
        unfold sgn
        rcases lt_trichotomy (p.1 - p.2) 0 with hl | he | hg
        · rw [if_pos hl]; norm_num
        · exact absurd he hne
        · rw [if_neg (not_lt.mpr hg.le), if_neg hne]; norm_num
      rw [hsq]
      simp [hp]
      push_cast
      ring

theorem kendallS_self (x : List ℚ) :
    kendallS (x.zip x) =
      (((upairs x).countP (fun p => decide (p.1 ≠ p.2)) : ℕ) : ℚ) := by
  unfold kendallS
  rw [zip_self_eq, upairs_map, List.map_map]
  have hfn : ((fun p : (ℚ × ℚ) × ℚ × ℚ => sgn (p.1.1 - p.2.1) * sgn (p.1.2 - p.2.2)) ∘
      fun p : ℚ × ℚ => ((p.1, p.1), (p.2, p.2))) =
      fun p : ℚ × ℚ => sgn (p.1 - p.2) * sgn (p.1 - p.2) := by
    funext p; rfl
  rw [hfn]
  exact sum_sgn_sq (upairs x)

theorem untied_pos (x : List ℚ) (h : svar x ≠ 0) :
    0 < (upairs x).countP (fun p => decide (p.1 ≠ p.2)) := by
  obtain ⟨a, ha, b, hb, hab⟩ := exists_ne_of_svar_ne x h
  obtain ⟨p, hp, hpne⟩ := exists_upair x a b ha hb hab
  rw [List.countP_pos_iff]
  exact ⟨p, hp, by simp [hpne]⟩

theorem kendallTauB_self (x : List ℚ) (h : svar x ≠ 0) :
    kendallTauB x x = some 1 := by
  have hT := untied_pos x h
  unfold kendallTauB
  rw [untied_self, untied_self2, kendallS_self]
  rw [if_neg (by rintro (hc | hc) <;> omega)]
  congr 1
  have hTne : (((upairs x).countP (fun p => decide (p.1 ≠ p.2)) : ℕ) : ℝ) ≠ 0 :=
    Nat.cast_ne_zero.mpr (by omega)
  rw [Real.mul_self_sqrt (by positivity)]
  push_cast
  exact div_self hTne

/-! ### C7: assembled correlation properties -/

theorem corrVal_comm (m : CorrMethod) (x y : List ℚ) :
    corrVal m x y = corrVal m y x := by
  cases m
  · exact pearsonCorr_comm x y
  · exact pearsonCorr_comm (rankAvg x) (rankAvg y)
  · exact kendallTauB_comm x y

theorem corrVal_self (m : CorrMethod) (x : List ℚ) (h : svar x ≠ 0) :
    corrVal m x x = some 1 := by
  cases m
  · exact pearsonCorr_self x h
  · exact pearsonCorr_self (rankAvg x) (svar_rank_ne x h)
  · exact kendallTauB_self x h

theorem matGet_corrMatrix (m : CorrMethod) (cols : List (List ℚ)) (i j : Nat) :
    matGet (corrMatrix m cols) i j =
      (cols.get? i).bind (fun x => (cols.get? j).map (fun y => corrVal m x y)) := by
  unfold matGet corrMatrix
  rw [List.get?_map]
  cases cols.get? i <;> simp [List.get?_map]

theorem corrMatrix_symm (m : CorrMethod) (cols : List (List ℚ)) (i j : Nat) :
    matGet (corrMatrix m cols) i j = matGet (corrMatrix m cols) j i := by
  rw [matGet_corrMatrix, matGet_corrMatrix]
  cases hx : cols.get? i <;> cases hy : cols.get? j <;> simp [corrVal_comm]

theorem corrMatrix_diag (m : CorrMethod) (cols : List (List ℚ)) (i : Nat)
    (c : List ℚ) (hc : cols.get? i = some c) (h : svar c ≠ 0) :
    matGet (corrMatrix m cols) i i = some (some 1) := by
  rw [matGet_corrMatrix, hc]
  simp [corrVal_self m c h]

/-! ### C7: pipeline -/

theorem valsToFloat_ok (vs : List Val) (h : vs.all Val.isNum = true) :
    valsToFloat vs = .ok (vs.map Val.toRat) := by
  induction vs with
  | nil => rfl
  | cons v t ih =>
    cases v with
    | num q =>
      have ht : t.all Val.isNum = true := by simpa [Val.isNum] using h
      simp [valsToFloat, ih ht, Except.map, Val.toRat]
    | str s => simp [Val.isNum] at h

theorem colsToFloat_ok (sel : List (String × Column))
    (h : ∀ p ∈ sel, p.2.vals.all Val.isNum = true) :
    colsToFloat sel = .ok (sel.map (fun p => p.2.vals.map Val.toRat)) := by
  induction sel with
  | nil => rfl
  | cons c t ih =>
    have hc := valsToFloat_ok c.2.vals (h c (List.mem_cons_self _ _))
    have ht := ih (fun p hp => h p (List.mem_cons_of_mem _ hp))
    simp [colsToFloat, hc, ht, Except.map]

/-- C7: on a residualized frame whose columns are all numeric, for each of
the three correlation methods `create_corrmat` succeeds, returning the
pairwise correlation matrix of the selected columns; every such matrix is
symmetric (`M[i][j] = M[j][i]`, exact equality of the modelled real
values), and its diagonal entry is exactly `1` at every index whose column
has nonzero variance. -/
theorem claim_C7 (df : DF) (names? : Option (List String)) (method : CorrMethod)
    (hnum : ∀ c ∈ df.cols, c.2.numeric = true)
    (hvals : ∀ c ∈ df.cols, c.2.vals.all Val.isNum = true)
    (hmem : ∀ n ∈ names?.getD (df.cols.map Prod.fst), (dfLookup df n).isSome = true) :
    create_corrmat df names? method =
      .ok (corrMatrix method
        ((names?.getD (df.cols.map Prod.fst)).map (colRat df))) ∧
    (∀ (cols : List (List ℚ)) (i j : Nat),
      matGet (corrMatrix method cols) i j = matGet (corrMatrix method cols) j i) ∧
    (∀ (cols : List (List ℚ)) (i : Nat) (c : List ℚ),
      cols.get? i = some c → svar c ≠ 0 →
      matGet (corrMatrix method cols) i i = some (some 1)) := by
  refine ⟨?_, corrMatrix_symm method,
    fun cols i c hc h => corrMatrix_diag method cols i c hc h⟩
  have hnn : get_non_numeric_cols df = [] := get_non_numeric_cols_nil df hnum
  have hsel := dfSelectCols_ok df (names?.getD (df.cols.map Prod.fst)) hmem
  have hfl : colsToFloat
      ((names?.getD (df.cols.map Prod.fst)).map (fun n => (n, colD df n))) =
      .ok (((names?.getD (df.cols.map Prod.fst)).map (fun n => (n, colD df n))).map
        (fun p => p.2.vals.map Val.toRat)) := by
    apply colsToFloat_ok
    intro p hp
    obtain ⟨n, hn, rfl⟩ := List.mem_map.mp hp
    obtain ⟨c, hc⟩ := Option.isSome_iff_exists.mp (hmem n hn)
    have hmemdf := dfLookup_mem df n c hc
    have hv := hvals (n, c) hmemdf
    show (colD df n).vals.all Val.isNum = true
    unfold colD
    rw [hc]
    exact hv
  have hmm : (((names?.getD (df.cols.map Prod.fst)).map (fun n => (n, colD df n))).map
      (fun p => p.2.vals.map Val.toRat)) =
      (names?.getD (df.cols.map Prod.fst)).map (colRat df) := by
    rw [List.map_map]
    apply List.map_congr_left
    intro n _
    exact (colRat_colD df n).symm
  rw [hmm] at hfl
  simp only [create_corrmat, hnn, npArrayTruthy, hsel, hfl]

/-- C7 witness: a two-column two-row numeric frame, Pearson method, all
columns selected by default. -/
theorem claim_C7_witness :
    ((∀ c ∈ (DF.mk [("a", ⟨true, [.num 0, .num 1]⟩),
                    ("b", ⟨true, [.num 1, .num 3]⟩)]).cols, c.2.numeric = true) ∧
     (∀ c ∈ (DF.mk [("a", ⟨true, [.num 0, .num 1]⟩),
                    ("b", ⟨true, [.num 1, .num 3]⟩)]).cols,
        c.2.vals.all Val.isNum = true) ∧
     (∀ n ∈ (none : Option (List String)).getD
         ((DF.mk [("a", ⟨true, [.num 0, .num 1]⟩),
                  ("b", ⟨true, [.num 1, .num 3]⟩)]).cols.map Prod.fst),
        (dfLookup ⟨[("a", ⟨true, [.num 0, .num 1]⟩),
                    ("b", ⟨true, [.num 1, .num 3]⟩)]⟩ n).isSome = true)) ∧
    (create_corrmat ⟨[("a", ⟨true, [.num 0, .num 1]⟩),
                      ("b", ⟨true, [.num 1, .num 3]⟩)]⟩ none .pearson =
      .ok (corrMatrix .pearson
        (((none : Option (List String)).getD
            ((DF.mk [("a", ⟨true, [.num 0, .num 1]⟩),
                     ("b", ⟨true, [.num 1, .num 3]⟩)]).cols.map Prod.fst)).map
          (colRat ⟨[("a", ⟨true, [.num 0, .num 1]⟩),
                    ("b", ⟨true, [.num 1, .num 3]⟩)]⟩))) ∧
     (∀ (cols : List (List ℚ)) (i j : Nat),
       matGet (corrMatrix .pearson cols) i j = matGet (corrMatrix .pearson cols) j i) ∧
     (∀ (cols : List (List ℚ)) (i : Nat) (c : List ℚ),
       cols.get? i = some c → svar c ≠ 0 →
       matGet (corrMatrix .pearson cols) i i = some (some 1))) :=
  ⟨⟨by decide, by decide, by decide⟩,
   claim_C7 ⟨[("a", ⟨true, [.num 0, .num 1]⟩), ("b", ⟨true, [.num 1, .num 3]⟩)]⟩
     none .pearson (by decide) (by decide) (by decide)⟩
